import Mathlib

/-!
Verification of the gpxwrench core: a shallow embedding of
`src/lib.rs` (speed calculation and activity-bounds detection) and
`src/gpxxml.rs` (the three streaming XML scanners: minimum-time scanner,
track-point filter, track-point extractor), together with theorems
settling the specification claims about them.

Modelling conventions:
- Instants (`OffsetDateTime`) are modelled as integers counting
  nanoseconds; `Duration::seconds(n)` becomes multiplication by `10^9`.
- The `f64` values produced by the external haversine/parse library
  calls are modelled as rationals, and the distance function and the
  timestamp/coordinate parsers are passed in as parameters (they are
  external library calls, not code of this repository).
- The XML byte stream is modelled as a list of structural events, the
  shape `quick_xml` delivers: element start (with attributes), element
  end, text, and a catch-all for all other markup (comments,
  declarations, CData, empty tags), which every scanner in the source
  handles through a wildcard match arm.
-/

namespace GpxWrench

/-- An absolute instant, in nanoseconds (models `time::OffsetDateTime`). -/
abbrev Time := Int

/-- Models the Rust cast `n as i64` on a `u64` value: reduce modulo
`2^64`, then reinterpret values at or above `2^63` as negative. -/
def u64AsI64 (n : ℕ) : Int :=
  if n % 2 ^ 64 < 2 ^ 63 then ((n % 2 ^ 64 : ℕ) : Int)
  else ((n % 2 ^ 64 : ℕ) : Int) - 2 ^ 64

/-- Models `Duration::seconds(buffer_seconds as i64)` viewed in
nanoseconds: the `u64` buffer is wrapped into `i64` before becoming a
duration. -/
def secondsDur (n : ℕ) : Int := u64AsI64 n * 1000000000

/-- Models the `TrackPoint` struct of `src/lib.rs`. -/
structure TrackPoint where
  lat : ℚ
  lon : ℚ
  time : Time
deriving DecidableEq, Inhabited

/-- Models `calculate_speed` of `src/lib.rs`: distance over positive
time delta, `0` otherwise.  The haversine distance (an external pure
float computation) is the parameter `dist`. -/
def calculate_speed (dist : TrackPoint → TrackPoint → ℚ) (p1 p2 : TrackPoint) : ℚ :=
  let time_diff : ℚ := ((p2.time - p1.time : Int) : ℚ) / 1000000000
  if 0 < time_diff then dist p1 p2 / time_diff else 0

/-- The speed labelled `i` in `detect_activity_bounds`: the speed from
sample `i-1` to sample `i`. -/
def speedAt (dist : TrackPoint → TrackPoint → ℚ) (tps : List TrackPoint) (i : ℕ) : ℚ :=
  calculate_speed dist tps[i-1]! tps[i]!

/-- The list of consecutive speeds computed by `detect_activity_bounds`,
without their index labels. -/
def trackSpeeds (dist : TrackPoint → TrackPoint → ℚ) (tps : List TrackPoint) : List ℚ :=
  (List.range' 1 (tps.length - 1)).map (speedAt dist tps)

/-- The forward scan loop of `detect_activity_bounds`: run-length
counter of consecutive speeds at or above threshold, reset on a low
speed; the first time the counter reaches 3 with no index recorded yet,
record `idx - counter + 1` (the first sample of the confirmed run). -/
def scanFwd (th : ℚ) : ℕ → Option ℕ → List (ℕ × ℚ) → Option ℕ
  | _, found, [] => found
  | c, found, (i, s) :: rest =>
    if th ≤ s then
      if 3 ≤ c + 1 ∧ found = none then scanFwd th (c + 1) (some (i - (c + 1) + 1)) rest
      else scanFwd th (c + 1) found rest
    else scanFwd th 0 found rest

/-- The backward scan loop of `detect_activity_bounds` (applied to the
reversed speeds list): same counter and reset rule, but the first time
the counter reaches 3 it records the current index itself. -/
def scanBwd (th : ℚ) : ℕ → Option ℕ → List (ℕ × ℚ) → Option ℕ
  | _, found, [] => found
  | c, found, (i, _s) :: rest =>
    if th ≤ _s then
      if 3 ≤ c + 1 ∧ found = none then scanBwd th (c + 1) (some i) rest
      else scanBwd th (c + 1) found rest
    else scanBwd th 0 found rest

/-- Models `detect_activity_bounds` of `src/lib.rs`. -/
def detect_activity_bounds (dist : TrackPoint → TrackPoint → ℚ)
    (track_points : List TrackPoint) (speed_threshold : ℚ) (buffer_seconds : ℕ) :
    Except String (Time × Time) :=
  if track_points.length < 2 then
    .error "Need at least 2 track points for activity detection"
  else
    let speeds := (List.range' 1 (track_points.length - 1)).map
      (fun i => (i, speedAt dist track_points i))
    let activity_start_idx := scanFwd speed_threshold 0 none speeds
    let activity_end_idx := scanBwd speed_threshold 0 none speeds.reverse
    let start_idx := activity_start_idx.getD 0
    let end_idx := activity_end_idx.getD (track_points.length - 1)
    .ok (track_points[start_idx]!.time - secondsDur buffer_seconds,
         track_points[end_idx]!.time + secondsDur buffer_seconds)

/-- True on `ok`, false on `error` (models `Result::is_ok`). -/
def isOkE {α : Type} (r : Except String α) : Bool :=
  match r with
  | .ok _ => true
  | .error _ => false

/-! ## The XML event stream model (`src/gpxxml.rs`) -/

/-- A structural XML event as delivered by `quick_xml`: `startE` is
`Event::Start` (tag name plus attributes), `endE` is `Event::End`,
`text` is `Event::Text`, and `other` stands for every remaining event
kind (comments, declarations, processing instructions, CData, empty
tags), all of which the three scanners treat through one wildcard arm. -/
inductive XmlEvent where
  | startE (name : String) (attrs : List (String × String))
  | endE (name : String)
  | text (s : String)
  | other (payload : String)
deriving DecidableEq, Repr

/-- Models `u8::is_ascii_whitespace` on one character of a text node
(space, tab, line feed, form feed, carriage return). -/
def isAsciiWs (c : Char) : Bool :=
  c = ' ' || c = '\t' || c = '\n' || c = '\x0c' || c = '\r'

/-- Models `e.iter().all(|&b| b.is_ascii_whitespace())` on a text node.
Every ASCII whitespace character is a single byte and every byte of a
non-ASCII character is above `0x7f`, so the byte-level check of the
source coincides with this character-level one. -/
def isWsOnly (s : String) : Bool :=
  s.toList.all isAsciiWs

/-! ### The minimum-time scanner (`find_minimum_time`) -/

/-- The mutable locals of `find_minimum_time`. -/
structure MinState where
  in_trkpt : Bool
  in_time_element : Bool
  time_text : String
  min_time : Option Time
deriving DecidableEq

/-- One loop iteration of `find_minimum_time`.  `pt` models
`OffsetDateTime::parse` with the ISO-8601 format (an external library
call): `some` on a successful parse of the accumulated text. -/
def minStep (pt : String → Option Time) (st : MinState) (ev : XmlEvent) : MinState :=
  match ev with
  | .startE name _ =>
    if name = "trkpt" then { st with in_trkpt := true }
    else if st.in_trkpt && name = "time" then
      { st with in_time_element := true, time_text := "" }
    else st
  | .endE name =>
    if name = "trkpt" then { st with in_trkpt := false }
    else if name = "time" && st.in_trkpt then
      { st with
          in_time_element := false,
          min_time :=
            match pt st.time_text with
            | some parsed =>
              match st.min_time with
              | none => some parsed
              | some t => if parsed < t then some parsed else st.min_time
            | none => st.min_time }
    else st
  | .text s =>
    if st.in_trkpt && st.in_time_element then { st with time_text := st.time_text ++ s }
    else st
  | .other _ => st

/-- Models `find_minimum_time` of `src/gpxxml.rs`: fold the step over
the whole event stream and return the accumulated minimum. -/
def find_minimum_time (pt : String → Option Time) (events : List XmlEvent) : Option Time :=
  (events.foldl (minStep pt) ⟨false, false, "", none⟩).min_time

/-! ### The track-point filter (`filter_xml_by_time_to_writer`) -/

/-- The mutable locals of `filter_xml_by_time_to_writer`. -/
structure FilterState where
  in_trkpt : Bool
  trkpt_buffer : List XmlEvent
  trkpt_time : Option Time
  in_time_element : Bool
  time_text : String
  in_trkseg : Bool
  just_filtered_trkpt : Bool
deriving DecidableEq

/-- The `include_point` decision taken when a `</trkpt>` is seen: with
a two-sided window include iff `start <= t < end`, with a single
threshold include iff `t <= threshold`, and exclude a timeless point. -/
def includePoint (tm : Option Time) (start_threshold : Time) (end_threshold : Option Time) : Bool :=
  match tm with
  | some point_time =>
    match end_threshold with
    | some end_thresh => decide (start_threshold ≤ point_time) && decide (point_time < end_thresh)
    | none => decide (point_time ≤ start_threshold)
  | none => false

/-- One loop iteration of `filter_xml_by_time_to_writer`: returns the
updated state together with the events written to the output during
this iteration. -/
def filterStep (pt : String → Option Time) (start_threshold : Time)
    (end_threshold : Option Time) (st : FilterState) (ev : XmlEvent) :
    FilterState × List XmlEvent :=
  match ev with
  | .startE name _ =>
    let st :=
      if name = "trkseg" then { st with in_trkseg := true, just_filtered_trkpt := false }
      else if name = "trkpt" then
        { st with in_trkpt := true, trkpt_buffer := [], trkpt_time := none,
                  time_text := "", just_filtered_trkpt := false }
      else st
    if st.in_trkpt then
      let st :=
        if name = "time" then { st with in_time_element := true, time_text := "" } else st
      ({ st with trkpt_buffer := st.trkpt_buffer ++ [ev] }, [])
    else (st, [ev])
  | .endE name =>
    if name = "trkseg" then
      ({ st with in_trkseg := false, just_filtered_trkpt := false }, [ev])
    else if name = "trkpt" then
      if includePoint st.trkpt_time start_threshold end_threshold then
        ({ st with in_trkpt := false, trkpt_buffer := [], just_filtered_trkpt := false },
         st.trkpt_buffer ++ [ev])
      else
        ({ st with in_trkpt := false, trkpt_buffer := [], just_filtered_trkpt := true }, [])
    else if st.in_trkpt then
      let st :=
        if name = "time" then
          { st with
              in_time_element := false,
              trkpt_time :=
                match pt st.time_text with
                | some parsed => some parsed
                | none => st.trkpt_time }
        else st
      ({ st with trkpt_buffer := st.trkpt_buffer ++ [ev] }, [])
    else (st, [ev])
  | .text s =>
    if st.in_trkpt then
      let st :=
        if st.in_time_element then { st with time_text := st.time_text ++ s } else st
      ({ st with trkpt_buffer := st.trkpt_buffer ++ [ev] }, [])
    else
      if st.in_trkseg && st.just_filtered_trkpt && isWsOnly s then (st, [])
      else
        let st := if isWsOnly s then st else { st with just_filtered_trkpt := false }
        (st, [ev])
  | .other _ =>
    if st.in_trkpt then ({ st with trkpt_buffer := st.trkpt_buffer ++ [ev] }, [])
    else (st, [ev])

/-- The filter loop: fold `filterStep` over the events, concatenating
everything written to the output. -/
def filterRun (pt : String → Option Time) (start_threshold : Time)
    (end_threshold : Option Time) : FilterState → List XmlEvent → FilterState × List XmlEvent
  | st, [] => (st, [])
  | st, ev :: rest =>
    let r1 := filterStep pt start_threshold end_threshold st ev
    let r2 := filterRun pt start_threshold end_threshold r1.1 rest
    (r2.1, r1.2 ++ r2.2)

/-- The initial state of `filter_xml_by_time_to_writer`. -/
def filterInit : FilterState :=
  ⟨false, [], none, false, "", false, false⟩

/-- Models `filter_xml_by_time_to_writer` of `src/gpxxml.rs`: the
sequence of events written to the output writer. -/
def filter_xml_by_time_to_writer (pt : String → Option Time) (start_threshold : Time)
    (end_threshold : Option Time) (input : List XmlEvent) : List XmlEvent :=
  (filterRun pt start_threshold end_threshold filterInit input).2

/-! ### The track-point extractor (`extract_track_points`) -/

/-- The mutable locals of `extract_track_points`, together with the
output vector being built. -/
structure ExtState where
  in_trkpt : Bool
  current_lat : Option ℚ
  current_lon : Option ℚ
  current_time : Option Time
  in_time_element : Bool
  time_text : String
  track_points : List TrackPoint

/-- One loop iteration of `extract_track_points`.  `pt` models the
ISO-8601 timestamp parse and `pc` models `str::parse::<f64>` on an
attribute value (both external library calls). -/
def extractStep (pt : String → Option Time) (pc : String → Option ℚ)
    (st : ExtState) (ev : XmlEvent) : ExtState :=
  match ev with
  | .startE name attrs =>
    if name = "trkpt" then
      let st := { st with in_trkpt := true, current_lat := none, current_lon := none,
                          current_time := none }
      attrs.foldl
        (fun st attr =>
          if attr.1 = "lat" then { st with current_lat := pc attr.2 }
          else if attr.1 = "lon" then { st with current_lon := pc attr.2 }
          else st)
        st
    else if st.in_trkpt && name = "time" then
      { st with in_time_element := true, time_text := "" }
    else st
  | .endE name =>
    if name = "trkpt" then
      match st.current_lat, st.current_lon, st.current_time with
      | some lat, some lon, some time =>
        { st with track_points := st.track_points ++ [⟨lat, lon, time⟩], in_trkpt := false }
      | _, _, _ => { st with in_trkpt := false }
    else if name = "time" && st.in_trkpt then
      { st with
          in_time_element := false,
          current_time :=
            match pt st.time_text with
            | some parsed => some parsed
            | none => st.current_time }
    else st
  | .text s =>
    if st.in_trkpt && st.in_time_element then { st with time_text := st.time_text ++ s }
    else st
  | .other _ => st

/-- Models `extract_track_points` of `src/gpxxml.rs`. -/
def extract_track_points (pt : String → Option Time) (pc : String → Option ℚ)
    (events : List XmlEvent) : List TrackPoint :=
  (events.foldl (extractStep pt pc) ⟨false, none, none, none, false, "", []⟩).track_points

/-! ## Specification-side notions used to state the claims -/

/-- The window predicate of the spec applied to the raw time text of a
point: keep iff the text parses and the parsed value satisfies the
active window (half-open two-sided, or inclusive single threshold). -/
def keepTime (pt : String → Option Time) (start_threshold : Time)
    (end_threshold : Option Time) (s : String) : Bool :=
  includePoint (pt s) start_threshold end_threshold

/-- The filter state between two point subtrees of a canonical
document: outside any point, inside the segment, empty buffer. -/
def midState (tt : Option Time) (txt : String) (jf : Bool) : FilterState :=
  ⟨false, [], tt, false, txt, true, jf⟩

/-- The effect one closed `<time>` element with text `s` has on a
tracked optional timestamp: a successful parse replaces it, a failed
parse leaves it unchanged. -/
def timeUpd (pt : String → Option Time) (cur : Option Time) (s : String) : Option Time :=
  match pt s with
  | some t => some t
  | none => cur

/-- The effect one closed `<time>` element with text `s` has on the
minimum-time accumulator: a successful strictly smaller parse replaces
it, anything else leaves it unchanged. -/
def minUpd (pt : String → Option Time) (cur : Option Time) (s : String) : Option Time :=
  match pt s with
  | some p =>
    match cur with
    | none => some p
    | some t => if p < t then some p else cur
  | none => cur

/-- A canonical `<trkpt>` subtree with one `<time>` child whose text is
`s`. -/
def pointBlock (s : String) : List XmlEvent :=
  [.startE "trkpt" [], .startE "time" [], .text s, .endE "time", .endE "trkpt"]

/-- A canonical `<trkpt>` subtree: with a `<time>` child when given
`some s`, without any `<time>` child when given `none`. -/
def pointBlockO : Option String → List XmlEvent
  | some s => pointBlock s
  | none => [.startE "trkpt" [], .endE "trkpt"]

/-- Concatenation of canonical point subtrees. -/
def blocks (items : List String) : List XmlEvent :=
  items.foldr (fun s acc => pointBlock s ++ acc) []

/-- Concatenation of canonical point subtrees, some timeless. -/
def blocksO (items : List (Option String)) : List XmlEvent :=
  items.foldr (fun s acc => pointBlockO s ++ acc) []

/-- A canonical GPX document for the filter: a `<trkseg>` of points
whose time texts are `items`, wrapped in a `<gpx>` element. -/
def docOf (items : List String) : List XmlEvent :=
  [.startE "gpx" [], .startE "trkseg" []] ++ blocks items ++ [.endE "trkseg", .endE "gpx"]

/-- A canonical GPX document for the minimum-time scanner: a list of
points, each with or without a `<time>` child. -/
def docMin (items : List (Option String)) : List XmlEvent :=
  [.startE "gpx" []] ++ blocksO items ++ [.endE "gpx"]

/-- No run of 3 or more consecutive speeds at or above the threshold
occurs anywhere in the list. -/
def noRun3 (th : ℚ) (l : List ℚ) : Prop :=
  ¬ ∃ s t a b c, l = s ++ a :: b :: c :: t ∧ th ≤ a ∧ th ≤ b ∧ th ≤ c

/-- Length of the leading run of speeds at or above the threshold. -/
def leadStreak (th : ℚ) : List ℚ → ℕ
  | [] => 0
  | s :: rest => if th ≤ s then leadStreak th rest + 1 else 0

/-- The labelled speed list in the reversed order in which the backward
scan of `detect_activity_bounds` consumes it: labels `m, m-1, …, 1`,
each paired with its speed. -/
def bwdList (f : ℕ → ℚ) : ℕ → List (ℕ × ℚ)
  | 0 => []
  | m + 1 => (m + 1, f (m + 1)) :: bwdList f m

/-- The greatest label `i ≥ 1` with `i + 2 ≤ b` such that the speeds at
labels `i`, `i+1`, `i+2` are all at or above the threshold — the window
the backward scan confirms first. -/
def greatestWin (th : ℚ) (f : ℕ → ℚ) : ℕ → Option ℕ
  | 0 => none
  | 1 => none
  | 2 => none
  | b + 3 =>
    if th ≤ f (b + 1) ∧ th ≤ f (b + 2) ∧ th ≤ f (b + 3) then some (b + 1)
    else greatestWin th f (b + 2)

/-- The minimum-accumulator fold of the scanner, over a list of parsed
values. -/
def foldMin (m : Option Time) (l : List Time) : Option Time :=
  l.foldl
    (fun acc p =>
      match acc with
      | none => some p
      | some t => if p < t then some p else acc)
    m

/-! ## Concrete fixtures used by witnesses and counterexamples -/

/-- Six samples one second apart; with `distC` the speeds at labels
1..5 are 0, 10, 10, 10, 10. -/
def tpsC : List TrackPoint :=
  [⟨0, 0, 0⟩, ⟨0, 0, 1000000000⟩, ⟨10, 0, 2000000000⟩, ⟨10, 0, 3000000000⟩,
   ⟨10, 0, 4000000000⟩, ⟨10, 0, 5000000000⟩]

/-- Two samples one second apart. -/
def tps2C : List TrackPoint :=
  [⟨0, 0, 0⟩, ⟨0, 0, 1000000000⟩]

/-- A concrete distance oracle: the latitude of the destination point. -/
def distC : TrackPoint → TrackPoint → ℚ := fun _ q => q.lat

/-- A concrete timestamp parser: `"a"` parses to 10, `"b"` to 20,
everything else fails. -/
def ptC : String → Option Time := fun s =>
  if s = "a" then some 10 else if s = "b" then some 20 else none

/-- A timestamp parser on which every text is malformed. -/
def ptNone : String → Option Time := fun _ => none

/-- The index `detect_activity_bounds` settles on for the activity
start: the forward scan result, defaulting to 0. -/
def detectStartIdx (dist : TrackPoint → TrackPoint → ℚ) (tps : List TrackPoint) (th : ℚ) : ℕ :=
  (scanFwd th 0 none
    ((List.range' 1 (tps.length - 1)).map (fun i => (i, speedAt dist tps i)))).getD 0

/-- The index `detect_activity_bounds` settles on for the activity
end: the backward scan result, defaulting to the last sample. -/
def detectEndIdx (dist : TrackPoint → TrackPoint → ℚ) (tps : List TrackPoint) (th : ℚ) : ℕ :=
  (scanBwd th 0 none
    ((List.range' 1 (tps.length - 1)).map (fun i => (i, speedAt dist tps i))).reverse).getD
    (tps.length - 1)

/-- A `<time>` element nested one level deeper (inside an
`<extensions>` child) in a point subtree. -/
def deepTimeBlock (s : String) : List XmlEvent :=
  [.startE "extensions" [], .startE "time" [], .text s, .endE "time", .endE "extensions"]

/-! ## Claim theorems -/

/-- The wrapped `u64 as i64` cast is the identity below `2^63`. -/
theorem u64AsI64_of_lt (n : ℕ) (h : n < 2 ^ 63) : u64AsI64 n = (n : Int) := by
  have hm : n % 2 ^ 64 = n := Nat.mod_eq_of_lt (by omega)
  rw [u64AsI64, hm, if_pos h]

/-- Below `2^63` the buffer duration is exactly the buffer in
nanoseconds. -/
theorem secondsDur_of_lt (n : ℕ) (h : n < 2 ^ 63) :
    secondsDur n = (n : Int) * 1000000000 := by
  rw [secondsDur, u64AsI64_of_lt n h]

/-- A zero buffer contributes a zero duration. -/
theorem secondsDur_zero : secondsDur 0 = 0 := by
  rw [secondsDur_of_lt 0 (by norm_num)]
  norm_num

/-- C8: for every pair of samples whose time delta (second minus first)
is zero or negative, `calculate_speed` returns exactly 0. -/
theorem calculate_speed_nonpositive_delta_zero
    (dist : TrackPoint → TrackPoint → ℚ) (p1 p2 : TrackPoint)
    (h : p2.time - p1.time ≤ 0) :
    calculate_speed dist p1 p2 = 0 := by
  unfold calculate_speed
  have h1 : ((p2.time - p1.time : Int) : ℚ) ≤ 0 := by exact_mod_cast h
  have h2 : ((p2.time - p1.time : Int) : ℚ) / 1000000000 ≤ 0 :=
    div_nonpos_iff.mpr (Or.inr ⟨h1, by norm_num⟩)
  rw [if_neg (not_lt.mpr h2)]

/-- Witness for C8: two concrete samples with the same timestamp give
speed 0. -/
theorem calculate_speed_nonpositive_delta_zero_witness :
    calculate_speed distC ⟨0, 0, 5⟩ ⟨10, 0, 5⟩ = 0 :=
  calculate_speed_nonpositive_delta_zero distC ⟨0, 0, 5⟩ ⟨10, 0, 5⟩ (by decide)

/-- C5: `detect_activity_bounds` returns an error exactly when given
fewer than 2 samples, and a window without error for 2 or more. -/
theorem detect_bounds_error_iff_lt_two
    (dist : TrackPoint → TrackPoint → ℚ) (tps : List TrackPoint)
    (th : ℚ) (buf : ℕ) :
    isOkE (detect_activity_bounds dist tps th buf) = false ↔ tps.length < 2 := by
  by_cases h : tps.length < 2
  · simp [detect_activity_bounds, if_pos h, isOkE, h]
  · simp [detect_activity_bounds, if_neg h, isOkE, h]

/-- On at least two samples, `detect_activity_bounds` returns the times
at the two scan indices, shifted by the buffer. -/
theorem detect_eq (dist : TrackPoint → TrackPoint → ℚ) (tps : List TrackPoint)
    (th : ℚ) (B : ℕ) (h : ¬ tps.length < 2) :
    detect_activity_bounds dist tps th B =
      .ok (tps[detectStartIdx dist tps th]!.time - secondsDur B,
           tps[detectEndIdx dist tps th]!.time + secondsDur B) := by
  simp only [detect_activity_bounds, if_neg h]
  rfl

/-- C7 counterexample: at `buffer = u64::MAX` the `u64 as i64` cast of
`Duration::seconds(buffer_seconds as i64)` wraps to `-1`, so the
returned window is the buffer-0 window shrunk by one second on each
side — the start moves later, not earlier by `B` seconds as the claim
requires. -/
theorem buffer_wrap_counterexample :
    detect_activity_bounds distC tps2C 5 0 = .ok (0, 1000000000) ∧
    detect_activity_bounds distC tps2C 5 18446744073709551615 = .ok (1000000000, 0) ∧
    (1000000000 : Time) ≠ 0 - (18446744073709551615 : Int) * 1000000000 := by
  refine ⟨?_, ?_, by decide⟩
  · norm_num [detect_activity_bounds, scanFwd, scanBwd, speedAt, tps2C, distC,
      calculate_speed, secondsDur, u64AsI64, List.range']
  · norm_num [detect_activity_bounds, scanFwd, scanBwd, speedAt, tps2C, distC,
      calculate_speed, secondsDur, u64AsI64, List.range']

/-- C7 as amended: for every buffer `B` below `2^63` — the range on
which the `u64 as i64` cast is value-preserving — detecting with
buffer `B` yields exactly the buffer-0 window shifted symmetrically by
`B` seconds on both sides; from `2^63` on the cast wraps and the shift
is by the wrapped value instead. -/
theorem detect_bounds_buffer_shift
    (dist : TrackPoint → TrackPoint → ℚ) (tps : List TrackPoint)
    (th : ℚ) (B : ℕ) (h : 2 ≤ tps.length) (hB : B < 2 ^ 63) :
    ∃ s0 e0, detect_activity_bounds dist tps th 0 = .ok (s0, e0) ∧
      detect_activity_bounds dist tps th B =
        .ok (s0 - (B : Int) * 1000000000, e0 + (B : Int) * 1000000000) := by
  have hlt : ¬ tps.length < 2 := by omega
  refine ⟨_, _, detect_eq dist tps th 0 hlt, ?_⟩
  rw [detect_eq dist tps th B hlt, secondsDur_zero, secondsDur_of_lt B hB]
  simp

/-- Witness for the amended C7: on the six-sample fixture, buffer 7
shifts the buffer-0 window by exactly 7 seconds on each side. -/
theorem detect_bounds_buffer_shift_witness :
    ∃ s0 e0, detect_activity_bounds distC tpsC 5 0 = .ok (s0, e0) ∧
      detect_activity_bounds distC tpsC 5 7 =
        .ok (s0 - ((7 : ℕ) : Int) * 1000000000, e0 + ((7 : ℕ) : Int) * 1000000000) :=
  detect_bounds_buffer_shift distC tpsC 5 7 (by decide) (by norm_num)

/-- C1: on a closing `</trkpt>` the filter writes the buffered point
followed by the closing tag exactly when `includePoint` holds, and for
a two-sided window a resolved time `t` is included iff
`start ≤ t < end`; in particular `t = start` is included whenever the
window is nonempty and `t = end` is never included. -/
theorem filter_two_sided_half_open
    (pt : String → Option Time) (start_threshold e t : Time) (st : FilterState) :
    ((filterStep pt start_threshold (some e) st (.endE "trkpt")).2 =
      if includePoint st.trkpt_time start_threshold (some e) then
        st.trkpt_buffer ++ [XmlEvent.endE "trkpt"]
      else []) ∧
    includePoint (some t) start_threshold (some e) =
      (decide (start_threshold ≤ t) && decide (t < e)) ∧
    includePoint (some start_threshold) start_threshold (some e) = decide (start_threshold < e) ∧
    includePoint (some e) start_threshold (some e) = false := by
  refine ⟨?_, rfl, ?_, ?_⟩
  · by_cases h : includePoint st.trkpt_time start_threshold (some e) = true
    · simp [filterStep, h]
    · simp [filterStep, h]
  · simp [includePoint]
  · simp [includePoint]

/-- C4 counterexample: after a dropped point, a comment (a
non-whitespace event) is written through without clearing the drop
flag, so the whitespace text after it — which is not the first event
after the drop — is still suppressed, contrary to the claim. -/
theorem whitespace_suppression_counterexample :
    filter_xml_by_time_to_writer ptNone 0 (some 100)
      [.startE "trkseg" [], .startE "trkpt" [], .endE "trkpt",
       .other "comment", .text " ", .endE "trkseg"] =
      [.startE "trkseg" [], .other "comment", .endE "trkseg"] ∧
    XmlEvent.text " " ∉ filter_xml_by_time_to_writer ptNone 0 (some 100)
      [.startE "trkseg" [], .startE "trkpt" [], .endE "trkpt",
       .other "comment", .text " ", .endE "trkseg"] := by
  constructor
  · rfl
  · decide

/-- C4 as amended: outside any point, a whitespace-only text event is
suppressed exactly when the drop flag is set while inside a track
segment; a text event clears the drop flag iff it is not
whitespace-only; any other markup event (comment, declaration, …) is
written through and leaves the drop flag unchanged, so whitespace
after it is still suppressed. -/
theorem whitespace_suppression_flag_dynamics
    (pt : String → Option Time) (start_threshold : Time) (end_threshold : Option Time)
    (st : FilterState) (s p : String) (h : st.in_trkpt = false) :
    (filterStep pt start_threshold end_threshold st (.text s)).2 =
      (if st.in_trkseg && st.just_filtered_trkpt && isWsOnly s then [] else [XmlEvent.text s]) ∧
    (filterStep pt start_threshold end_threshold st (.text s)).1.just_filtered_trkpt =
      (if isWsOnly s then st.just_filtered_trkpt else false) ∧
    (filterStep pt start_threshold end_threshold st (.other p)).2 = [XmlEvent.other p] ∧
    (filterStep pt start_threshold end_threshold st (.other p)).1.just_filtered_trkpt =
      st.just_filtered_trkpt := by
  refine ⟨?_, ?_, ?_, ?_⟩
  · cases hseg : st.in_trkseg <;> cases hjf : st.just_filtered_trkpt <;>
      cases hw : isWsOnly s <;> simp [filterStep, h, hseg, hjf, hw]
  · cases hseg : st.in_trkseg <;> cases hjf : st.just_filtered_trkpt <;>
      cases hw : isWsOnly s <;> simp [filterStep, h, hseg, hjf, hw]
  · simp [filterStep, h]
  · simp [filterStep, h]

/-- Witness for the amended C4 at a concrete state: inside a segment
with the drop flag set, a whitespace text is suppressed without
touching the flag, and a comment is written through without touching
the flag. -/
theorem whitespace_suppression_flag_witness :
    ((filterStep ptNone 0 none ⟨false, [], none, false, "", true, true⟩ (.text " ")).2 =
      (if (true : Bool) && (true : Bool) && isWsOnly " " then [] else [XmlEvent.text " "])) ∧
    ((filterStep ptNone 0 none ⟨false, [], none, false, "", true, true⟩ (.text " ")).1.just_filtered_trkpt =
      (if isWsOnly " " then (true : Bool) else false)) ∧
    ((filterStep ptNone 0 none ⟨false, [], none, false, "", true, true⟩ (.other "c")).2 =
      [XmlEvent.other "c"]) ∧
    ((filterStep ptNone 0 none ⟨false, [], none, false, "", true, true⟩ (.other "c")).1.just_filtered_trkpt =
      (true : Bool)) :=
  whitespace_suppression_flag_dynamics ptNone 0 none
    ⟨false, [], none, false, "", true, true⟩ " " "c" rfl

/-- The empty string is a left identity of string append. -/
theorem empty_append_str (s : String) : "" ++ s = s := rfl

/-! ### Run-length lemmas about the two scans of `detect_activity_bounds` -/

/-- Dropping the head preserves the absence of a 3-run. -/
theorem noRun3_tail (th x : ℚ) (l : List ℚ) (h : noRun3 th (x :: l)) : noRun3 th l := by
  rintro ⟨s, t, a, b, c, rfl, ha, hb, hc⟩
  exact h ⟨x :: s, t, a, b, c, rfl, ha, hb, hc⟩

/-- Without a 3-run, the leading above-threshold streak is at most 2. -/
theorem leadStreak_le_two (th : ℚ) (l : List ℚ) (h : noRun3 th l) : leadStreak th l ≤ 2 := by
  rcases l with _ | ⟨a, _ | ⟨b, _ | ⟨c, rest⟩⟩⟩
  · simp [leadStreak]
  · by_cases ha : th ≤ a <;> simp [leadStreak, ha]
  · by_cases ha : th ≤ a <;> by_cases hb : th ≤ b <;> simp [leadStreak, ha, hb]
  · by_cases ha : th ≤ a
    · by_cases hb : th ≤ b
      · by_cases hc : th ≤ c
        · exact absurd ⟨[], rest, a, b, c, rfl, ha, hb, hc⟩ h
        · simp [leadStreak, ha, hb, hc]
      · simp [leadStreak, ha, hb]
    · simp [leadStreak, ha]

/-- Absence of a 3-run is preserved by list reversal. -/
theorem noRun3_reverse (th : ℚ) (l : List ℚ) (h : noRun3 th l) : noRun3 th l.reverse := by
  rintro ⟨s, t, a, b, c, hdec, ha, hb, hc⟩
  apply h
  refine ⟨t.reverse, s.reverse, c, b, a, ?_, hc, hb, ha⟩
  have h2 := congrArg List.reverse hdec
  simp only [List.reverse_reverse, List.reverse_append, List.reverse_cons] at h2
  simp [h2, List.append_assoc]

/-- With no 3-run ahead and fewer than 3 confirmations available, the
forward scan never records an index. -/
theorem scanFwd_of_noRun (th : ℚ) (l : List (ℕ × ℚ)) :
    ∀ c found, noRun3 th (l.map Prod.snd) → leadStreak th (l.map Prod.snd) + c < 3 →
      scanFwd th c found l = found := by
  induction l with
  | nil => intro c found _ _; rfl
  | cons x rest ih =>
    intro c found hnr hls
    obtain ⟨i, s⟩ := x
    simp only [List.map_cons] at hnr hls
    by_cases hs : th ≤ s
    · have hstep : leadStreak th (rest.map Prod.snd) + (c + 1) < 3 := by
        simp only [leadStreak, if_pos hs] at hls
        omega
      have h3 : ¬ (3 ≤ c + 1 ∧ found = none) := fun hcon => by omega
      rw [scanFwd, if_pos hs, if_neg h3]
      exact ih (c + 1) found (noRun3_tail th s _ hnr) hstep
    · rw [scanFwd, if_neg hs]
      have hle := leadStreak_le_two th (rest.map Prod.snd) (noRun3_tail th s _ hnr)
      exact ih 0 found (noRun3_tail th s _ hnr) (by omega)

/-- With no 3-run ahead and fewer than 3 confirmations available, the
backward scan never records an index. -/
theorem scanBwd_of_noRun (th : ℚ) (l : List (ℕ × ℚ)) :
    ∀ c found, noRun3 th (l.map Prod.snd) → leadStreak th (l.map Prod.snd) + c < 3 →
      scanBwd th c found l = found := by
  induction l with
  | nil => intro c found _ _; rfl
  | cons x rest ih =>
    intro c found hnr hls
    obtain ⟨i, s⟩ := x
    simp only [List.map_cons] at hnr hls
    by_cases hs : th ≤ s
    · have hstep : leadStreak th (rest.map Prod.snd) + (c + 1) < 3 := by
        simp only [leadStreak, if_pos hs] at hls
        omega
      have h3 : ¬ (3 ≤ c + 1 ∧ found = none) := fun hcon => by omega
      rw [scanBwd, if_pos hs, if_neg h3]
      exact ih (c + 1) found (noRun3_tail th s _ hnr) hstep
    · rw [scanBwd, if_neg hs]
      have hle := leadStreak_le_two th (rest.map Prod.snd) (noRun3_tail th s _ hnr)
      exact ih 0 found (noRun3_tail th s _ hnr) (by omega)

/-- The unlabelled speeds of the labelled speed list used by
`detect_activity_bounds` are exactly `trackSpeeds`. -/
theorem speeds_map_snd (dist : TrackPoint → TrackPoint → ℚ) (tps : List TrackPoint) :
    ((List.range' 1 (tps.length - 1)).map (fun i => (i, speedAt dist tps i))).map Prod.snd =
      trackSpeeds dist tps := by
  simp [trackSpeeds, List.map_map, Function.comp]

/-- C6: on at least 2 samples with no run of 3 or more consecutive
speeds at or above the threshold, `detect_activity_bounds` with buffer
0 returns exactly the first and last sample times. -/
theorem detect_bounds_no_run_full_span
    (dist : TrackPoint → TrackPoint → ℚ) (tps : List TrackPoint) (th : ℚ)
    (h2 : 2 ≤ tps.length) (hnr : noRun3 th (trackSpeeds dist tps)) :
    detect_activity_bounds dist tps th 0 =
      .ok (tps[0]!.time, tps[tps.length - 1]!.time) := by
  have hlt : ¬ tps.length < 2 := by omega
  have hmap := speeds_map_snd dist tps
  have hstart : detectStartIdx dist tps th = 0 := by
    unfold detectStartIdx
    rw [scanFwd_of_noRun th _ 0 none (by rw [hmap]; exact hnr)
      (by rw [hmap]; have := leadStreak_le_two th _ hnr; omega)]
    rfl
  have hrevmap : (((List.range' 1 (tps.length - 1)).map
      (fun i => (i, speedAt dist tps i))).reverse).map Prod.snd =
      (trackSpeeds dist tps).reverse := by
    rw [List.map_reverse, hmap]
  have hend : detectEndIdx dist tps th = tps.length - 1 := by
    unfold detectEndIdx
    rw [scanBwd_of_noRun th _ 0 none (by rw [hrevmap]; exact noRun3_reverse th _ hnr)
      (by rw [hrevmap]
          have := leadStreak_le_two th _ (noRun3_reverse th _ hnr)
          omega)]
    rfl
  rw [detect_eq dist tps th 0 hlt, hstart, hend, secondsDur_zero]
  simp

/-- Witness for C6: two stationary samples, speeds `[0]`, no 3-run;
the window is the full span. -/
theorem detect_bounds_no_run_full_span_witness :
    detect_activity_bounds distC tps2C 5 0 =
      .ok (tps2C[0]!.time, tps2C[tps2C.length - 1]!.time) := by
  refine detect_bounds_no_run_full_span distC tps2C 5 (by decide) ?_
  rintro ⟨s, t, a, b, c, hd, -, -, -⟩
  have hl : (trackSpeeds distC tps2C).length = 1 := rfl
  rw [hd] at hl
  simp at hl
  omega

/-! ### Document-level behaviour of the filter -/

/-- Running the filter over a concatenation splits into the two runs. -/
theorem filterRun_append (pt : String → Option Time) (sT : Time) (eT : Option Time)
    (l1 l2 : List XmlEvent) :
    ∀ st, filterRun pt sT eT st (l1 ++ l2) =
      ((filterRun pt sT eT (filterRun pt sT eT st l1).1 l2).1,
       (filterRun pt sT eT st l1).2 ++ (filterRun pt sT eT (filterRun pt sT eT st l1).1 l2).2) := by
  induction l1 with
  | nil => intro st; simp [filterRun]
  | cons ev rest ih =>
    intro st
    simp [filterRun, ih]

/-- Running the filter over one canonical point subtree from a
between-points state: the state returns to a between-points state, the
resolved time is the parse of the point's time text, and the subtree is
written out iff `keepTime` holds. -/
theorem filterRun_pointBlock (pt : String → Option Time) (sT : Time) (eT : Option Time)
    (s : String) (tt : Option Time) (txt : String) (jf : Bool) :
    filterRun pt sT eT (midState tt txt jf) (pointBlock s) =
      (midState (pt s) s (!keepTime pt sT eT s),
       if keepTime pt sT eT s then pointBlock s else []) := by
  cases hps : pt s with
  | none =>
    simp [pointBlock, filterRun, filterStep, midState, keepTime, includePoint,
      empty_append_str, hps]
  | some t =>
    by_cases hk : includePoint (some t) sT eT = true
    · simp [pointBlock, filterRun, filterStep, midState, keepTime,
        empty_append_str, hps, hk]
    · simp [pointBlock, filterRun, filterStep, midState, keepTime,
        empty_append_str, hps, hk]

/-- Running the filter over a list of canonical point subtrees from a
between-points state writes out exactly the subtrees whose time text
satisfies the window predicate, ending in a between-points state. -/
theorem filterRun_blocks (pt : String → Option Time) (sT : Time) (eT : Option Time)
    (items : List String) :
    ∀ tt txt jf, ∃ tt' txt' jf',
      filterRun pt sT eT (midState tt txt jf) (blocks items) =
        (midState tt' txt' jf',
         blocks (items.filter (fun s => keepTime pt sT eT s))) := by
  induction items with
  | nil => intro tt txt jf; exact ⟨tt, txt, jf, rfl⟩
  | cons s rest ih =>
    intro tt txt jf
    have hb : blocks (s :: rest) = pointBlock s ++ blocks rest := rfl
    obtain ⟨tt', txt', jf', hrest⟩ := ih (pt s) s (!keepTime pt sT eT s)
    refine ⟨tt', txt', jf', ?_⟩
    rw [hb, filterRun_append, filterRun_pointBlock, hrest]
    by_cases hk : keepTime pt sT eT s = true
    · simp [hk, List.filter_cons, blocks]
    · simp [hk, List.filter_cons, blocks]

/-- C2: on a canonical document a `<trkpt>` is retained iff its
`<time>` text parses and the parsed time satisfies the active window
predicate; every point whose time does not parse is dropped; the
surrounding structure is reproduced. -/
theorem filter_retains_iff_time_in_window (pt : String → Option Time)
    (sT : Time) (eT : Option Time) (items : List String) :
    filter_xml_by_time_to_writer pt sT eT (docOf items) =
      [XmlEvent.startE "gpx" [], XmlEvent.startE "trkseg" []] ++
        blocks (items.filter (fun s => keepTime pt sT eT s)) ++
        [XmlEvent.endE "trkseg", XmlEvent.endE "gpx"] := by
  unfold filter_xml_by_time_to_writer docOf
  obtain ⟨tt', txt', jf', hbl⟩ := filterRun_blocks pt sT eT items none "" false
  have hhead : filterRun pt sT eT filterInit
      [XmlEvent.startE "gpx" [], XmlEvent.startE "trkseg" []] =
      (midState none "" false, [XmlEvent.startE "gpx" [], XmlEvent.startE "trkseg" []]) := by
    simp [filterRun, filterStep, filterInit, midState]
  have htail : filterRun pt sT eT (midState tt' txt' jf')
      [XmlEvent.endE "trkseg", XmlEvent.endE "gpx"] =
      (⟨false, [], tt', false, txt', false, false⟩,
       [XmlEvent.endE "trkseg", XmlEvent.endE "gpx"]) := by
    simp [filterRun, filterStep, midState]
  rw [List.append_assoc]
  rw [filterRun_append, hhead, filterRun_append, hbl, htail]
  simp

/-! ### Document-level behaviour of the minimum-time scanner -/

/-- One more parsed value folds into the accumulator as one `minUpd`
step, when the value is the parse of the text. -/
theorem foldMin_cons_minUpd (pt : String → Option Time) (m : Option Time)
    (s : String) (p : Time) (hps : pt s = some p) (l : List Time) :
    foldMin m (p :: l) = foldMin (minUpd pt m s) l := by
  cases m with
  | none =>
    simp only [minUpd, hps]
    rfl
  | some t =>
    simp only [minUpd, hps]
    rfl

/-- The accumulator fold started on a value computes the fold of
`min`. -/
theorem foldMin_some (l : List Time) : ∀ t, foldMin (some t) l = some (l.foldl min t) := by
  induction l with
  | nil => intro t; rfl
  | cons p rest ih =>
    intro t
    show foldMin (if p < t then some p else some t) rest = some (rest.foldl min (min t p))
    have hm : (if p < t then some p else some t) = some (min t p) := by
      by_cases h : p < t
      · rw [if_pos h, min_eq_right h.le]
      · rw [if_neg h, min_eq_left (not_lt.mp h)]
    rw [hm, ih (min t p)]

/-- The accumulator fold started empty computes the list minimum. -/
theorem foldMin_none_eq_min (l : List Time) : foldMin none l = l.min? := by
  cases l with
  | nil => rfl
  | cons a rest =>
    show foldMin (some a) rest = (a :: rest).min?
    rw [foldMin_some rest a]
    rfl

/-- Scanning one canonical timed point subtree from a between-points
scanner state folds the parse of its text into the minimum. -/
theorem minRun_pointBlockO_some (pt : String → Option Time) (s : String)
    (txt : String) (m : Option Time) :
    (pointBlockO (some s)).foldl (minStep pt) ⟨false, false, txt, m⟩ =
      ⟨false, false, s, minUpd pt m s⟩ := by
  simp [pointBlockO, pointBlock, minStep, minUpd, empty_append_str]

/-- Scanning a list of canonical point subtrees accumulates exactly the
fold of the successfully parsed times. -/
theorem minRun_blocksO (pt : String → Option Time) (items : List (Option String)) :
    ∀ txt m, ∃ txt',
      (blocksO items).foldl (minStep pt) ⟨false, false, txt, m⟩ =
        ⟨false, false, txt', foldMin m ((items.filterMap id).filterMap pt)⟩ := by
  induction items with
  | nil => intro txt m; exact ⟨txt, rfl⟩
  | cons it rest ih =>
    intro txt m
    have hb : blocksO (it :: rest) = pointBlockO it ++ blocksO rest := rfl
    rw [hb, List.foldl_append]
    cases it with
    | none =>
      have hblk : (pointBlockO none).foldl (minStep pt) ⟨false, false, txt, m⟩ =
          ⟨false, false, txt, m⟩ := by
        simp [pointBlockO, minStep]
      rw [hblk]
      obtain ⟨txt', h⟩ := ih txt m
      exact ⟨txt', by simpa using h⟩
    | some s =>
      rw [minRun_pointBlockO_some]
      obtain ⟨txt', h⟩ := ih s (minUpd pt m s)
      refine ⟨txt', ?_⟩
      rw [h]
      cases hps : pt s with
      | some p =>
        simp only [List.filterMap_cons, id_eq, hps]
        rw [foldMin_cons_minUpd pt m s p hps]
      | none =>
        simp only [List.filterMap_cons, id_eq, hps, minUpd]

/-- C9: on a canonical document the minimum-time scanner returns the
minimum of the successfully parsed times across all points, skipping
timeless points and failed parses, and `none` when nothing parses
(including the empty document). -/
theorem find_minimum_time_min_of_parses (pt : String → Option Time)
    (items : List (Option String)) :
    find_minimum_time pt (docMin items) = ((items.filterMap id).filterMap pt).min? := by
  unfold find_minimum_time docMin
  rw [List.append_assoc, List.foldl_append, List.foldl_append]
  have hg : List.foldl (minStep pt) ⟨false, false, "", none⟩ [XmlEvent.startE "gpx" []] =
      (⟨false, false, "", none⟩ : MinState) := by
    simp [minStep]
  rw [hg]
  obtain ⟨txt', hbl⟩ := minRun_blocksO pt items "" none
  rw [hbl]
  have he : List.foldl (minStep pt)
      (⟨false, false, txt', foldMin none ((items.filterMap id).filterMap pt)⟩ : MinState)
      [XmlEvent.endE "gpx"] =
      ⟨false, false, txt', foldMin none ((items.filterMap id).filterMap pt)⟩ := by
    simp [minStep]
  rw [he]
  exact foldMin_none_eq_min _

/-! ### Characterization of the backward scan -/

/-- Once the backward scan has recorded an index, later iterations
never change it. -/
theorem scanBwd_found_frozen (th : ℚ) (l : List (ℕ × ℚ)) :
    ∀ c e, scanBwd th c (some e) l = some e := by
  induction l with
  | nil => intro c e; rfl
  | cons x rest ih =>
    intro c e
    obtain ⟨i, s⟩ := x
    by_cases hs : th ≤ s
    · have h3 : ¬ (3 ≤ c + 1 ∧ (some e : Option ℕ) = none) := by
        rintro ⟨-, h⟩
        exact Option.noConfusion h
      rw [scanBwd, if_pos hs, if_neg h3]
      exact ih (c + 1) e
    · rw [scanBwd, if_neg hs]
      exact ih 0 e

/-- A below-threshold label inside the top window lets `greatestWin`
step its bound down by one. -/
theorem greatestWin_drop (th : ℚ) (f : ℕ → ℚ) (b j : ℕ)
    (hb : 3 ≤ b) (hj1 : b - 2 ≤ j) (hj2 : j ≤ b) (hact : ¬ th ≤ f j) :
    greatestWin th f b = greatestWin th f (b - 1) := by
  obtain ⟨b', rfl⟩ : ∃ b', b = b' + 3 := ⟨b - 3, by omega⟩
  have hcond : ¬ (th ≤ f (b' + 1) ∧ th ≤ f (b' + 2) ∧ th ≤ f (b' + 3)) := by
    rintro ⟨h1, h2, h3⟩
    have : j = b' + 1 ∨ j = b' + 2 ∨ j = b' + 3 := by omega
    rcases this with rfl | rfl | rfl
    · exact hact h1
    · exact hact h2
    · exact hact h3
  rw [greatestWin, if_neg hcond]
  rfl

/-- A below-threshold label `j` freezes `greatestWin` for every bound
up to two above `j`: the value equals the one at bound `j - 1`. -/
theorem greatestWin_stable (th : ℚ) (f : ℕ → ℚ) (j : ℕ) (hact : ¬ th ≤ f j) :
    ∀ b, j ≤ b → b ≤ j + 2 → greatestWin th f b = greatestWin th f (j - 1) := by
  intro b
  induction b using Nat.strong_induction_on with
  | _ b ih =>
    intro hb1 hb2
    by_cases hb3 : 3 ≤ b
    · rw [greatestWin_drop th f b j hb3 (by omega) (by omega) hact]
      by_cases hbe : j ≤ b - 1
      · exact ih (b - 1) (by omega) hbe (by omega)
      · have he : b - 1 = j - 1 := by omega
        rw [he]
    · have h1 : greatestWin th f b = none := by
        interval_cases b <;> rfl
      have h2 : greatestWin th f (j - 1) = none := by
        have hj2 : j - 1 ≤ 2 := by omega
        set k := j - 1 with hk
        interval_cases k <;> rfl
      rw [h1, h2]

/-- The reversed labelled speed list is `bwdList`. -/
theorem bwdList_eq (f : ℕ → ℚ) :
    ∀ m, ((List.range' 1 m).map (fun j => (j, f j))).reverse = bwdList f m := by
  intro m
  induction m with
  | zero => rfl
  | succ m ih =>
    rw [List.range'_concat, List.map_append, List.reverse_append]
    simp only [List.map_cons, List.map_nil, List.reverse_cons, List.reverse_nil,
      List.nil_append, List.singleton_append]
    rw [ih]
    simp [bwdList, Nat.add_comm]

/-- The backward scan over labels `m, m-1, …, 1` with counter `c` and
the labels `m+1 … m+c` known to be above threshold computes exactly
`greatestWin` at bound `m + c`. -/
theorem scanBwd_bwdList (th : ℚ) (f : ℕ → ℚ) :
    ∀ m c, c ≤ 2 → (∀ k, m < k → k ≤ m + c → th ≤ f k) →
      scanBwd th c none (bwdList f m) = greatestWin th f (m + c) := by
  intro m
  induction m with
  | zero =>
    intro c hc _
    interval_cases c <;> rfl
  | succ m ih =>
    intro c hc hk
    rw [bwdList]
    by_cases hs : th ≤ f (m + 1)
    · by_cases h3 : 3 ≤ c + 1
      · have hc2 : c = 2 := by omega
        subst hc2
        rw [scanBwd, if_pos hs, if_pos ⟨h3, rfl⟩, scanBwd_found_frozen]
        have he : m + 1 + 2 = m + 3 := by omega
        rw [he]
        have hcond : th ≤ f (m + 1) ∧ th ≤ f (m + 2) ∧ th ≤ f (m + 3) :=
          ⟨hs, hk (m + 2) (by omega) (by omega), hk (m + 3) (by omega) (by omega)⟩
        rw [greatestWin, if_pos hcond]
      · have hk' : ∀ k, m < k → k ≤ m + (c + 1) → th ≤ f k := by
          intro k hk1 hk2
          by_cases hke : k = m + 1
          · subst hke
            exact hs
          · exact hk k (by omega) (by omega)
        rw [scanBwd, if_pos hs, if_neg (fun hcon => h3 hcon.1)]
        rw [ih (c + 1) (by omega) hk']
        have he : m + (c + 1) = m + 1 + c := by omega
        rw [he]
    · rw [scanBwd, if_neg hs]
      rw [ih 0 (by omega) (fun k hka hkb => absurd hka (by omega))]
      rw [greatestWin_stable th f (m + 1) hs (m + 1 + c) (by omega) (by omega)]
      have he : m + 0 = m + 1 - 1 := by omega
      rw [he]

/-- Under a top window at `i` with nothing above it, `greatestWin`
returns `i`. -/
theorem greatestWin_eq_some (th : ℚ) (f : ℕ → ℚ) (i : ℕ) (h1 : 1 ≤ i)
    (hw : th ≤ f i ∧ th ≤ f (i + 1) ∧ th ≤ f (i + 2)) :
    ∀ b, i + 2 ≤ b →
      (∀ i', i < i' → i' + 2 ≤ b →
        ¬ (th ≤ f i' ∧ th ≤ f (i' + 1) ∧ th ≤ f (i' + 2))) →
      greatestWin th f b = some i := by
  intro b
  induction b using Nat.strong_induction_on with
  | _ b ih =>
    intro h2 hmax
    obtain ⟨b', rfl⟩ : ∃ b', b = b' + 3 := ⟨b - 3, by omega⟩
    by_cases hc : th ≤ f (b' + 1) ∧ th ≤ f (b' + 2) ∧ th ≤ f (b' + 3)
    · have hie : i = b' + 1 := by
        by_contra hne
        exact hmax (b' + 1) (by omega) (by omega) ⟨hc.1, hc.2.1, hc.2.2⟩
      subst hie
      rw [greatestWin, if_pos hc]
    · have hne : i ≠ b' + 1 := by
        rintro rfl
        exact hc ⟨hw.1, hw.2.1, hw.2.2⟩
      rw [greatestWin, if_neg hc]
      exact ih (b' + 2) (by omega) (by omega)
        (fun i' ha hb => hmax i' ha (by omega))

/-- C3 counterexample: with speeds `[0, 10, 10, 10, 10]` at labels 1–5
and threshold 5, the run of above-threshold speeds has later index 5
(sample time 5s), but the backward scan fixes the activity-end index at
3 (sample time 3s), two below the run's later index. -/
theorem backward_scan_end_index_counterexample :
    trackSpeeds distC tpsC = [0, 10, 10, 10, 10] ∧
    detect_activity_bounds distC tpsC 5 0 = .ok (2000000000, 3000000000) ∧
    (3000000000 : Time) ≠ tpsC[5]!.time := by
  refine ⟨?_, ?_, by decide⟩
  · norm_num [trackSpeeds, speedAt, tpsC, distC, calculate_speed, List.range']
  · norm_num [detect_activity_bounds, scanFwd, scanBwd, speedAt, tpsC, distC,
      calculate_speed, secondsDur, u64AsI64, List.range']
    decide

/-- C3 as amended: the first run of at least 3 consecutive speeds at or
above the threshold found when scanning from the end fixes the
activity-end index at the label where the backward counter first
reaches 3 — the earliest label of the last above-threshold window,
i.e. two below the run's later index — and the returned end time is
that sample's time plus the buffer. -/
theorem backward_scan_confirms_two_below_run_end
    (dist : TrackPoint → TrackPoint → ℚ) (tps : List TrackPoint)
    (th : ℚ) (B : ℕ) (i : ℕ) (h1 : 1 ≤ i) (h2 : i + 2 ≤ tps.length - 1)
    (hw : th ≤ speedAt dist tps i ∧ th ≤ speedAt dist tps (i + 1) ∧
          th ≤ speedAt dist tps (i + 2))
    (hmax : ∀ i', i < i' → i' + 2 ≤ tps.length - 1 →
      ¬ (th ≤ speedAt dist tps i' ∧ th ≤ speedAt dist tps (i' + 1) ∧
         th ≤ speedAt dist tps (i' + 2))) :
    ∃ s, detect_activity_bounds dist tps th B =
      .ok (s, tps[i]!.time + secondsDur B) := by
  have hlen : ¬ tps.length < 2 := by omega
  have hidx : detectEndIdx dist tps th = i := by
    unfold detectEndIdx
    rw [bwdList_eq (speedAt dist tps) (tps.length - 1)]
    rw [scanBwd_bwdList th (speedAt dist tps) (tps.length - 1) 0 (by omega)
      (fun k hka hkb => absurd hka (by omega))]
    rw [Nat.add_zero]
    rw [greatestWin_eq_some th (speedAt dist tps) i h1 hw (tps.length - 1) h2 hmax]
    rfl
  exact ⟨_, by rw [detect_eq dist tps th B hlen, hidx]⟩

/-- Witness for the amended C3 on the six-sample fixture: the last
above-threshold window starts at label 3, so the end time is the time
of sample 3. -/
theorem backward_scan_confirms_two_below_run_end_witness :
    ∃ s, detect_activity_bounds distC tpsC 5 0 =
      .ok (s, tpsC[3]!.time + secondsDur 0) := by
  apply backward_scan_confirms_two_below_run_end distC tpsC 5 0 3 (by decide) (by decide)
  · refine ⟨?_, ?_, ?_⟩ <;> norm_num [speedAt, tpsC, distC, calculate_speed]
  · intro i' ha hb
    have h6 : tpsC.length = 6 := rfl
    rw [h6] at hb
    exact absurd ha (by omega)

/-- C10 counterexample: a point whose two `<time>` children parse to 10
and then 20.  Per the claim the point's time is the last parse, 20, so
the document minimum should be 20 — but `find_minimum_time` feeds every
successful parse into the minimum and returns 10. -/
theorem min_scanner_last_time_counterexample :
    find_minimum_time ptC
      [.startE "gpx" [], .startE "trkpt" [], .startE "time" [], .text "a", .endE "time",
       .startE "time" [], .text "b", .endE "time", .endE "trkpt", .endE "gpx"] = some 10 ∧
    timeUpd ptC (timeUpd ptC none "a") "b" = some 20 ∧
    some (10 : Time) ≠ some (20 : Time) := by
  refine ⟨rfl, rfl, by decide⟩

/-- C10 as amended: in all three scanners a `<time>` element at any
nesting depth inside a `<trkpt>` subtree is processed.  In the Filter
and the Extractor the last successfully parsed `<time>` determines the
point's time and a later unparseable one does not erase it; in the
Minimum-Time Scanner every successfully parsed `<time>` (not only the
last per point) participates in the running minimum, an unparseable one
being skipped. -/
theorem time_element_deep_last_parse_wins
    (pt : String → Option Time) (pc : String → Option ℚ)
    (start_threshold : Time) (end_threshold : Option Time)
    (stF : FilterState) (stM : MinState) (stE : ExtState) (s1 s2 : String)
    (hF : stF.in_trkpt = true) (hM : stM.in_trkpt = true) (hE : stE.in_trkpt = true) :
    (filterRun pt start_threshold end_threshold stF
        (deepTimeBlock s1 ++ deepTimeBlock s2)).1.trkpt_time =
      timeUpd pt (timeUpd pt stF.trkpt_time s1) s2 ∧
    ((deepTimeBlock s1 ++ deepTimeBlock s2).foldl (minStep pt) stM).min_time =
      minUpd pt (minUpd pt stM.min_time s1) s2 ∧
    ((deepTimeBlock s1 ++ deepTimeBlock s2).foldl (extractStep pt pc) stE).current_time =
      timeUpd pt (timeUpd pt stE.current_time s1) s2 := by
  refine ⟨?_, ?_, ?_⟩
  · simp [deepTimeBlock, filterRun, filterStep, hF, timeUpd, empty_append_str]
  · simp [deepTimeBlock, List.foldl, minStep, hM, minUpd, empty_append_str]
  · simp [deepTimeBlock, List.foldl, extractStep, hE, timeUpd, empty_append_str]

/-- Witness for the amended C10 at concrete in-point states, with the
first time text parsing to 10 and the second one failing to parse. -/
theorem time_element_deep_last_parse_wins_witness :
    (filterRun ptC 0 none ⟨true, [], none, false, "", false, false⟩
        (deepTimeBlock "a" ++ deepTimeBlock "zz")).1.trkpt_time =
      timeUpd ptC (timeUpd ptC none "a") "zz" ∧
    ((deepTimeBlock "a" ++ deepTimeBlock "zz").foldl (minStep ptC)
        ⟨true, false, "", none⟩).min_time =
      minUpd ptC (minUpd ptC none "a") "zz" ∧
    ((deepTimeBlock "a" ++ deepTimeBlock "zz").foldl
        (extractStep ptC (fun _ => none)) ⟨true, none, none, none, false, "", []⟩).current_time =
      timeUpd ptC (timeUpd ptC none "a") "zz" :=
  time_element_deep_last_parse_wins ptC (fun _ => none) 0 none
    ⟨true, [], none, false, "", false, false⟩ ⟨true, false, "", none⟩
    ⟨true, none, none, none, false, "", []⟩ "a" "zz" rfl rfl rfl

end GpxWrench
